import Mathlib

/-!
Shallow embedding of `src/Backend/Models/filler_word_detection.py`
(class `FillerDetector`) in Lean 4.

Text is modelled as `List Char` (ASCII is the intended character range;
Python's `str.lower`, `\w` and `\s` are modelled by `Char.toLower`,
ASCII alphanumerics plus underscore, and the six ASCII whitespace
characters, which coincide with Python's behaviour on ASCII input).
Python floats are modelled by `ℚ`; `round(x, 2)` is modelled as exact
rational rounding to two decimals with round-half-to-even tie breaking.
Python dicts that the code builds are modelled as association lists in
insertion order; Python sets used only for membership are modelled as
lists, with union as append.
-/

abbrev Text := List Char

/-- Whitespace recognised by Python's argument-less `str.split` (ASCII part). -/
def isPySpace (c : Char) : Bool :=
  c = ' ' || c = '\t' || c = '\n' || c = '\r' || c = '\x0b' || c = '\x0c'

/-- Python regex `\w` (ASCII part): alphanumerics and underscore. -/
def isWordChar (c : Char) : Bool := c.isAlphanum || c = '_'

/-- `str.lower()` applied characterwise. -/
def toLowerText (s : Text) : Text := s.map Char.toLower

/-- Helper for `splitWs`: `acc` is the (reversed) word currently being read. -/
def splitWsAux : Text → Text → List Text
  | [], acc => if acc = [] then [] else [acc.reverse]
  | c :: cs, acc =>
    if isPySpace c then
      if acc = [] then splitWsAux cs [] else acc.reverse :: splitWsAux cs []
    else splitWsAux cs (c :: acc)

/-- Python `str.split()` with no argument: split on runs of whitespace,
discarding empty pieces. -/
def splitWs (s : Text) : List Text := splitWsAux s []

/-- `' '.join(ws)`. -/
def joinSp : List Text → Text
  | [] => []
  | [w] => w
  | w :: ws => w ++ ' ' :: joinSp ws

/-- `re.sub(r'[^\w\s]', '', word).lower()` — strip characters that are
neither word characters nor whitespace, then lowercase
(`_detect_single_fillers`, line 103). -/
def clean_word (w : Text) : Text :=
  (w.filter (fun c => isWordChar c || isPySpace c)).map Char.toLower

/-- `core_fillers` (always counted). -/
def core_fillers : List Text :=
  [("um".toList), ("uh".toList), ("umm".toList), ("uhh".toList), ("ummm".toList),
   ("uhhh".toList), ("er".toList), ("err".toList), ("erm".toList), ("ah".toList),
   ("ahh".toList), ("ahhh".toList)]

/-- `common_fillers` (medium strictness additions). -/
def common_fillers : List Text :=
  [("like".toList), ("you know".toList), ("i mean".toList), ("basically".toList),
   ("actually".toList), ("literally".toList)]

/-- `additional_fillers` (strict-only additions). -/
def additional_fillers : List Text :=
  [("sort of".toList), ("kind of".toList), ("you see".toList), ("obviously".toList),
   ("honestly".toList), ("frankly".toList), ("seriously".toList), ("just".toList),
   ("really".toList), ("very".toList), ("well".toList), ("so".toList),
   ("anyway".toList), ("right".toList), ("okay".toList), ("alright".toList)]

/-- The strictness-dependent single-word vocabulary built in `__init__`
(lines 36–41): `lenient` → core, `medium` → core ∪ common,
anything else → core ∪ common ∪ additional. -/
def fillerWordsFor (strictness : String) : List Text :=
  if strictness = "lenient" then core_fillers
  else if strictness = "medium" then core_fillers ++ common_fillers
  else core_fillers ++ common_fillers ++ additional_fillers

/-- `self.filler_phrases` (lines 44–49), a fixed ordered list. -/
def phraseVocabulary : List Text :=
  [("you know".toList), ("i mean".toList), ("sort of".toList), ("kind of".toList)]

/-- Alias under the source's name. -/
def filler_phrases : List Text := phraseVocabulary

/-- The `'type'` field of an occurrence dict: `'single'` or `'phrase'`. -/
inductive FillerType where
  | single : FillerType
  | phrase : FillerType
deriving DecidableEq

/-- One occurrence dict `{'word': …, 'position': …, 'type': …}`. -/
structure FillerOcc where
  word : Text
  position : Nat
  ftype : FillerType
deriving DecidableEq

/-- The detector object: `self.strictness`, `self.filler_words`,
`self.filler_phrases`. -/
structure FillerDetector where
  strictness : String
  filler_words : List Text
  filler_phrases : List Text
deriving DecidableEq

/-- `FillerDetector.__init__`. -/
def FillerDetector.init (strictness : String) : FillerDetector :=
  { strictness := strictness
    filler_words := fillerWordsFor strictness
    filler_phrases := phraseVocabulary }

/-- A Python value passed as `text`: either a string or some non-string
value (anything for which `isinstance(text, str)` is false). -/
inductive PyValue where
  | str : Text → PyValue
  | other : PyValue

/-- The result dict of `detect_fillers`.  `filler_frequency` and
`categories` are dicts in Python, modelled as association lists in key
insertion order. -/
structure DetectResult where
  total_fillers : Nat
  total_words : Nat
  filler_density_percentage : ℚ
  fillers_list : List FillerOcc
  filler_frequency : List (Text × Nat)
  categories : List (String × Nat)
  score : ℚ
deriving DecidableEq

/-- `_empty_result` (lines 181–191). -/
def empty_result : DetectResult :=
  { total_fillers := 0
    total_words := 0
    filler_density_percentage := 0
    fillers_list := []
    filler_frequency := []
    categories := []
    score := 100 }

/-- `_detect_single_fillers` (lines 97–112), with the enumeration index
made explicit. -/
def detectSingleAux (fw : List Text) : Nat → List Text → List FillerOcc
  | _, [] => []
  | i, w :: ws =>
    if clean_word w ∈ fw then
      { word := clean_word w, position := i, ftype := FillerType.single }
        :: detectSingleAux fw (i + 1) ws
    else detectSingleAux fw (i + 1) ws

def detect_single_fillers (fw : List Text) (words : List Text) : List FillerOcc :=
  detectSingleAux fw 0 words

/-- `l[i]?`-based word-character test used for `\b` semantics; positions
outside the string count as non-word. -/
def isWordAt (s : Text) (i : Nat) : Bool :=
  match s[i]? with
  | some c => isWordChar c
  | none => false

/-- Regex `\b`: a word boundary sits at index `i` iff exactly one of the
characters around position `i` is a word character (positions outside
the string are non-word). -/
def boundaryAt (s : Text) (i : Nat) : Bool :=
  match i with
  | 0 => isWordAt s 0
  | j + 1 => isWordAt s j != isWordAt s (j + 1)

/-- Case-insensitive equality of character lists (regex `re.IGNORECASE`). -/
def lowerEq (a b : Text) : Bool := a.map Char.toLower == b.map Char.toLower

/-- The regex `r'\b' + re.escape(pat) + r'\b'` with `re.IGNORECASE`
matches `s` at offset `p`. -/
def matchAt (s pat : Text) (p : Nat) : Bool :=
  decide (p + pat.length ≤ s.length)
    && lowerEq ((s.drop p).take pat.length) pat
    && boundaryAt s p
    && boundaryAt s (p + pat.length)

/-- `re.finditer` scan: repeatedly find the leftmost match at or after
the current position, then resume after its end.  `fuel` only bounds the
recursion; `finditer` supplies enough fuel to scan the whole string. -/
def scanAux (s pat : Text) : Nat → Nat → List Nat
  | 0, _ => []
  | fuel + 1, p =>
    if matchAt s pat p then p :: scanAux s pat fuel (p + pat.length)
    else scanAux s pat fuel (p + 1)

/-- Start offsets of the non-overlapping matches `re.finditer` yields. -/
def finditer (s pat : Text) : List Nat := scanAux s pat (s.length + 1) 0

/-- `_detect_phrase_fillers` (lines 114–130): for each phrase in order,
all `finditer` matches in order. -/
def detect_phrase_fillers (phs : List Text) (s : Text) : List FillerOcc :=
  match phs with
  | [] => []
  | ph :: rest =>
    (finditer s ph).map (fun p => { word := ph, position := p, ftype := FillerType.phrase })
      ++ detect_phrase_fillers rest s

/-- Category vocabularies of `_categorize_fillers` (lines 141–144),
fixed and independent of strictness. -/
def hesitations_voc : List Text :=
  [("um".toList), ("uh".toList), ("er".toList), ("ah".toList), ("umm".toList),
   ("uhh".toList), ("err".toList), ("erm".toList)]

def discourse_voc : List Text :=
  [("like".toList), ("you know".toList), ("i mean".toList), ("basically".toList),
   ("actually".toList), ("literally".toList), ("sort of".toList), ("kind of".toList)]

def intensifiers_voc : List Text :=
  [("really".toList), ("very".toList), ("just".toList), ("so".toList)]

def apologetic_voc : List Text :=
  [("sorry".toList), ("excuse me".toList)]

/-- The `if/elif` chain of `_categorize_fillers`, as the category a word
falls into (`none` when it matches no category). -/
def category_of (w : Text) : Option String :=
  if w ∈ hesitations_voc then some ("hesitations")
  else if w ∈ discourse_voc then some ("discourse_markers")
  else if w ∈ intensifiers_voc then some ("intensifiers")
  else if w ∈ apologetic_voc then some ("apologetic")
  else none

/-- `_categorize_fillers` (lines 132–157): the four counts, in the dict's
key order. -/
def categorize_fillers (fs : List FillerOcc) : List (String × Nat) :=
  [(("hesitations"), (fs.filter (fun f => category_of f.word == some ("hesitations"))).length),
   (("discourse_markers"), (fs.filter (fun f => category_of f.word == some ("discourse_markers"))).length),
   (("intensifiers"), (fs.filter (fun f => category_of f.word == some ("intensifiers"))).length),
   (("apologetic"), (fs.filter (fun f => category_of f.word == some ("apologetic"))).length)]

/-- First occurrences of each distinct word, in discovery order
(Python's `Counter` key order). -/
def dedupFirst (l : List Text) : List Text :=
  l.foldl (fun acc w => if w ∈ acc then acc else acc ++ [w]) []

/-- Stable insertion into a list sorted by descending count. -/
def insertByCount (x : Text × Nat) : List (Text × Nat) → List (Text × Nat)
  | [] => [x]
  | y :: ys => if y.2 ≤ x.2 then x :: y :: ys else y :: insertByCount x ys

/-- `dict(Counter(words).most_common())`: word → count, ordered by
descending count, ties in discovery order. -/
def most_common (ws : List Text) : List (Text × Nat) :=
  ((dedupFirst ws).map (fun w => (w, ws.count w))).foldr insertByCount []

/-- Round-half-to-even to an integer (Python's `round` tie behaviour). -/
def roundHalfEven (q : ℚ) : ℤ :=
  let f := ⌊q⌋
  let r := q - (f : ℚ)
  if r < 1 / 2 then f
  else if 1 / 2 < r then f + 1
  else if f % 2 = 0 then f else f + 1

/-- Python `round(x, 2)`. -/
def pyRound2 (q : ℚ) : ℚ := ((roundHalfEven (q * 100) : ℤ) : ℚ) / 100

/-- `_calculate_filler_score` (lines 159–179). -/
def calculate_filler_score (filler_density : ℚ) : ℚ :=
  if filler_density ≤ 2 then 100
  else if filler_density ≤ 5 then 90
  else if filler_density ≤ 8 then 80
  else if filler_density ≤ 12 then 70
  else if filler_density ≤ 15 then 60
  else if filler_density ≤ 20 then 50
  else if filler_density ≤ 25 then 40
  else if filler_density ≤ 30 then 30
  else max 20 (30 - (filler_density - 30) * 0.5)

/-- `detect_fillers` (lines 51–95).  `if not text or not isinstance(text, str)`
is true exactly for non-strings and the empty string. -/
def detect_fillers (d : FillerDetector) (inp : PyValue) : DetectResult :=
  match inp with
  | PyValue.other => empty_result
  | PyValue.str t =>
    if t = [] then empty_result
    else
      let text_lower := toLowerText t
      let words := splitWs text_lower
      let total_words := words.length
      let single_fillers := detect_single_fillers d.filler_words words
      let phrase_fillers := detect_phrase_fillers d.filler_phrases text_lower
      let all_fillers := single_fillers ++ phrase_fillers
      let total_fillers := all_fillers.length
      let filler_density : ℚ :=
        if 0 < total_words then (total_fillers : ℚ) / (total_words : ℚ) * 100 else 0
      { total_fillers := total_fillers
        total_words := total_words
        filler_density_percentage := pyRound2 filler_density
        fillers_list := all_fillers
        filler_frequency := most_common (all_fillers.map (fun f => f.word))
        categories := categorize_fillers all_fillers
        score := calculate_filler_score filler_density }

/-- `f"**{…}**"` wrapping. -/
def wrapStars (w : Text) : Text := '*' :: '*' :: (w ++ ['*', '*'])

/-- The single-word highlighting pass of `highlight_fillers`
(lines 215–223): replace the token at each recorded position by its
starred form.  (The Python loop runs in descending position order only
to keep indices stable; index assignment into the token list is
order-independent, which this map captures.) -/
def wrapTokens (positions : List Nat) : Nat → List Text → List Text
  | _, [] => []
  | i, w :: ws =>
    (if i ∈ positions then wrapStars w else w) :: wrapTokens positions (i + 1) ws

/-- One step of `re.sub(r'\b'+phrase+r'\b', f"**{phrase}**", s, re.IGNORECASE)`:
scan from offset `p`, replacing each non-overlapping match. -/
def subAuxF (s ph : Text) : Nat → Nat → Text
  | 0, p => s.drop p
  | fuel + 1, p =>
    if matchAt s ph p then wrapStars ph ++ subAuxF s ph fuel (p + ph.length)
    else
      match s[p]? with
      | some c => c :: subAuxF s ph fuel (p + 1)
      | none => []

/-- `re.sub` of the phrase pattern by its starred lowercase form. -/
def reSubStar (s ph : Text) : Text := subAuxF s ph (s.length + 1) 0

/-- `highlight_fillers` (lines 193–230). -/
def highlight_fillers (d : FillerDetector) (inp : PyValue) : Text :=
  match inp with
  | PyValue.other => []
  | PyValue.str t =>
    if t = [] then []
    else
      d.filler_phrases.foldl (fun acc ph => reSubStar acc ph)
        (joinSp (wrapTokens
          (((detect_fillers d (PyValue.str t)).fillers_list.filter
              (fun f => f.ftype == FillerType.single)).map (fun f => f.position))
          0 (splitWs t)))

/-- Removing the inserted highlight markers: drop every `'*'`. -/
def stripStars (s : Text) : Text := s.filter (fun c => c != '*')

/-- `detect_fillers` as a state-passing method call: the Python body
contains no assignment to `self`, so the post-state is the receiver. -/
def detect_fillersM (d : FillerDetector) (inp : PyValue) : DetectResult × FillerDetector :=
  (detect_fillers d inp, d)

/-- `highlight_fillers` as a state-passing method call. -/
def highlight_fillersM (d : FillerDetector) (inp : PyValue) : Text × FillerDetector :=
  (highlight_fillers d inp, d)

/-- Modelled from the spec (§4.1 score table): the step function the
specification states, written from the spec's words for comparison with
`calculate_filler_score`. -/
def scoreTable (density : ℚ) : ℚ :=
  if density ≤ 2 then 100
  else if density ≤ 5 then 90
  else if density ≤ 8 then 80
  else if density ≤ 12 then 70
  else if density ≤ 15 then 60
  else if density ≤ 20 then 50
  else if density ≤ 25 then 40
  else if density ≤ 30 then 30
  else max 20 (30 - (density - 30) * 0.5)

/-- Whether `pat` has a proper border: a `k` with `0 < k < pat.length`
such that dropping the first `k` characters leaves a prefix of `pat`.
Two occurrences of the same pattern can overlap only when the pattern
has a proper border; none of the four filler phrases does. -/
def hasProperBorder (pat : Text) : Bool :=
  (List.range pat.length).any
    (fun k => decide (0 < k) && (pat.drop k == pat.take (pat.length - k)))

/-! ## Helper lemmas -/

lemma calculate_filler_score_bounds (d : ℚ) :
    20 ≤ calculate_filler_score d ∧ calculate_filler_score d ≤ 100 := by
  unfold calculate_filler_score
  split_ifs
  all_goals constructor
  all_goals first
    | (norm_num; done)
    | exact le_max_left _ _
    | exact max_le (by norm_num) (by linarith)

/-! ## Claim theorems -/

set_option maxHeartbeats 2000000 in
/-- C2: the score is exactly the piecewise step function of filler
density given in the spec table (here `scoreTable`, written from the
spec's words); for every density the score is at least 20 (the floor at
20 holds exactly); and the function is monotonically non-increasing in
density. -/
theorem C2_score_step_function :
    (∀ d : ℚ, calculate_filler_score d = scoreTable d)
  ∧ (∀ d : ℚ, 20 ≤ calculate_filler_score d)
  ∧ (∀ d1 d2 : ℚ, d1 ≤ d2 → calculate_filler_score d2 ≤ calculate_filler_score d1) := by
  refine ⟨fun d => rfl, fun d => (calculate_filler_score_bounds d).1, ?_⟩
  intro d1 d2 h
  unfold calculate_filler_score
  split_ifs
  all_goals first
    | linarith
    | exact max_le_max (le_refl 20) (by linarith)
    | exact max_le (by norm_num) (by linarith)

/-- Witness for C2 at concrete densities: 3 ≤ 10, so the score at
density 10 is at most the score at density 3. -/
theorem C2_score_step_function_witness :
    calculate_filler_score 10 ≤ calculate_filler_score 3 :=
  C2_score_step_function.2.2 3 10 (by norm_num)

/-- C3: for non-string input and for the empty string, `detect_fillers`
returns the zero-result — all counts 0, density 0, empty occurrence
list, empty frequency mapping, and score 100 — and, being a total
function, never signals an error. -/
theorem C3_empty_input_zero_result : ∀ (s : String),
    detect_fillers (FillerDetector.init s) PyValue.other = empty_result
  ∧ detect_fillers (FillerDetector.init s) (PyValue.str []) = empty_result
  ∧ empty_result.total_fillers = 0
  ∧ empty_result.total_words = 0
  ∧ empty_result.filler_density_percentage = 0
  ∧ empty_result.fillers_list = []
  ∧ empty_result.filler_frequency = []
  ∧ empty_result.score = 100 := by
  intro s
  exact ⟨rfl, rfl, rfl, rfl, rfl, rfl, rfl, rfl⟩

/-- C9: the method calls are deterministic pure functions of the input
text and the construction-time strictness: the post-state of each call
is the receiver unchanged (so the vocabulary is never modified), a
repeated call through the returned state gives the same result, and
calls with equal strictness and equal text give equal results. -/
theorem C9_pure_deterministic : ∀ (s : String) (inp : PyValue),
    (detect_fillersM (FillerDetector.init s) inp).2 = FillerDetector.init s
  ∧ (highlight_fillersM (FillerDetector.init s) inp).2 = FillerDetector.init s
  ∧ (detect_fillersM ((detect_fillersM (FillerDetector.init s) inp).2) inp).1
      = (detect_fillersM (FillerDetector.init s) inp).1
  ∧ ∀ (s2 : String) (inp2 : PyValue), s = s2 → inp = inp2 →
      detect_fillers (FillerDetector.init s) inp = detect_fillers (FillerDetector.init s2) inp2
    ∧ highlight_fillers (FillerDetector.init s) inp = highlight_fillers (FillerDetector.init s2) inp2 := by
  intro s inp
  refine ⟨rfl, rfl, rfl, ?_⟩
  intro s2 inp2 hs hi
  subst hs
  subst hi
  exact ⟨rfl, rfl⟩

/-- Witness for C9 at a concrete strictness and text. -/
theorem C9_pure_deterministic_witness :
    detect_fillers (FillerDetector.init ("medium")) (PyValue.str ("um ok".toList))
      = detect_fillers (FillerDetector.init ("medium")) (PyValue.str ("um ok".toList))
  ∧ highlight_fillers (FillerDetector.init ("medium")) (PyValue.str ("um ok".toList))
      = highlight_fillers (FillerDetector.init ("medium")) (PyValue.str ("um ok".toList)) :=
  (C9_pure_deterministic ("medium") (PyValue.str ("um ok".toList))).2.2.2
    ("medium") (PyValue.str ("um ok".toList)) rfl rfl

/-- C1: for every string input with at least one whitespace-split token,
`total_words` is the number of whitespace-split tokens of the lowercased
text (fillers are not excluded from the count) and
`filler_density_percentage` is `round(total_fillers/total_words*100, 2)`;
when the token count is zero the density is 0. -/
theorem C1_total_words_and_density :
    (∀ (s : String) (t : Text), splitWs (toLowerText t) ≠ [] →
      (detect_fillers (FillerDetector.init s) (PyValue.str t)).total_words
          = (splitWs (toLowerText t)).length
        ∧ (detect_fillers (FillerDetector.init s) (PyValue.str t)).filler_density_percentage
          = pyRound2 (((detect_fillers (FillerDetector.init s) (PyValue.str t)).total_fillers : ℚ)
              / ((detect_fillers (FillerDetector.init s) (PyValue.str t)).total_words : ℚ) * 100))
  ∧ (∀ (s : String) (t : Text), splitWs (toLowerText t) = [] →
      (detect_fillers (FillerDetector.init s) (PyValue.str t)).filler_density_percentage = 0) := by
  constructor
  · intro s t h
    have ht : t ≠ [] := by
      intro h0
      rw [h0] at h
      exact h rfl
    have hw : 0 < (splitWs (toLowerText t)).length := List.length_pos.mpr h
    simp only [detect_fillers, if_neg ht]
    exact ⟨trivial, by rw [if_pos hw]⟩
  · intro s t h
    by_cases ht : t = []
    · rw [ht]
      rfl
    · have hw : ¬ 0 < (splitWs (toLowerText t)).length := by
        rw [h]
        exact lt_irrefl 0
      simp only [detect_fillers, if_neg ht]
      rw [if_neg hw]
      show pyRound2 0 = 0
      norm_num [pyRound2, roundHalfEven]

/-- Witness for C1 at concrete inputs: a two-token text and an
all-whitespace text. -/
theorem C1_total_words_and_density_witness :
    ((detect_fillers (FillerDetector.init ("medium")) (PyValue.str ("um hi".toList))).total_words
        = (splitWs (toLowerText ("um hi".toList))).length
      ∧ (detect_fillers (FillerDetector.init ("medium")) (PyValue.str ("um hi".toList))).filler_density_percentage
        = pyRound2 (((detect_fillers (FillerDetector.init ("medium")) (PyValue.str ("um hi".toList))).total_fillers : ℚ)
            / ((detect_fillers (FillerDetector.init ("medium")) (PyValue.str ("um hi".toList))).total_words : ℚ) * 100))
  ∧ (detect_fillers (FillerDetector.init ("medium")) (PyValue.str ("  ".toList))).filler_density_percentage = 0 :=
  ⟨C1_total_words_and_density.1 ("medium") ("um hi".toList) (by decide),
   C1_total_words_and_density.2 ("medium") ("  ".toList) (by decide)⟩

/-! ## Monotonicity of single-word detection in the vocabulary -/

lemma detectSingleAux_mono (fw fw2 : List Text)
    (hsub : ∀ w, w ∈ fw → w ∈ fw2) :
    ∀ (ws : List Text) (i : Nat) (o : FillerOcc),
      o ∈ detectSingleAux fw i ws → o ∈ detectSingleAux fw2 i ws := by
  intro ws
  induction ws with
  | nil =>
    intro i o h
    simp [detectSingleAux] at h
  | cons w rest ih =>
    intro i o h
    unfold detectSingleAux at h ⊢
    by_cases hc : clean_word w ∈ fw
    · rw [if_pos hc] at h
      rw [if_pos (hsub _ hc)]
      rcases List.mem_cons.mp h with h1 | h2
      · exact h1 ▸ List.mem_cons_self _ _
      · exact List.mem_cons_of_mem _ (ih _ _ h2)
    · rw [if_neg hc] at h
      by_cases hc2 : clean_word w ∈ fw2
      · rw [if_pos hc2]
        exact List.mem_cons_of_mem _ (ih _ _ h)
      · rw [if_neg hc2]
        exact ih _ _ h

lemma fillerWords_lenient_sub_medium :
    ∀ w, w ∈ fillerWordsFor ("lenient") → w ∈ fillerWordsFor ("medium") := by
  intro w h
  show w ∈ core_fillers ++ common_fillers
  exact List.mem_append_left _ h

lemma fillerWords_medium_sub_strict :
    ∀ w, w ∈ fillerWordsFor ("medium") → w ∈ fillerWordsFor ("strict") := by
  intro w h
  show w ∈ core_fillers ++ common_fillers ++ additional_fillers
  exact List.mem_append_left _ h

/-- C4: for every fixed input, every occurrence detected under
`lenient` is detected under `medium`, and every occurrence detected
under `medium` is detected under `strict` (the successive vocabularies
are supersets of one another and detection is monotone in them); in
particular the same holds for the detected terms. -/
theorem C4_strictness_monotone : ∀ (inp : PyValue) (o : FillerOcc),
    (o ∈ (detect_fillers (FillerDetector.init ("lenient")) inp).fillers_list →
      o ∈ (detect_fillers (FillerDetector.init ("medium")) inp).fillers_list)
  ∧ (o ∈ (detect_fillers (FillerDetector.init ("medium")) inp).fillers_list →
      o ∈ (detect_fillers (FillerDetector.init ("strict")) inp).fillers_list) := by
  have main : ∀ (s1 s2 : String), (∀ w, w ∈ fillerWordsFor s1 → w ∈ fillerWordsFor s2) →
      ∀ (inp : PyValue) (o : FillerOcc),
      o ∈ (detect_fillers (FillerDetector.init s1) inp).fillers_list →
      o ∈ (detect_fillers (FillerDetector.init s2) inp).fillers_list := by
    intro s1 s2 hsub inp o h
    cases inp with
    | other => exact h
    | str t =>
      by_cases ht : t = []
      · rw [ht] at h ⊢
        exact h
      · simp only [detect_fillers, if_neg ht] at h ⊢
        rcases List.mem_append.mp h with h1 | h1
        · exact List.mem_append_left _ (detectSingleAux_mono _ _ hsub _ _ _ h1)
        · exact List.mem_append_right _ h1
  intro inp o
  exact ⟨main ("lenient") ("medium") fillerWords_lenient_sub_medium inp o,
         main ("medium") ("strict") fillerWords_medium_sub_strict inp o⟩

/-- Witness for C4: the occurrence of `um` in a concrete text detected
under `lenient` is detected under `medium`, and one detected under
`medium` is detected under `strict`. -/
theorem C4_strictness_monotone_witness :
    ({ word := ("um".toList), position := 0, ftype := FillerType.single } : FillerOcc)
      ∈ (detect_fillers (FillerDetector.init ("medium")) (PyValue.str ("um yes".toList))).fillers_list
  ∧ ({ word := ("um".toList), position := 0, ftype := FillerType.single } : FillerOcc)
      ∈ (detect_fillers (FillerDetector.init ("strict")) (PyValue.str ("um yes".toList))).fillers_list :=
  ⟨(C4_strictness_monotone (PyValue.str ("um yes".toList))
      { word := ("um".toList), position := 0, ftype := FillerType.single }).1 (by decide),
   (C4_strictness_monotone (PyValue.str ("um yes".toList))
      { word := ("um".toList), position := 0, ftype := FillerType.single }).2 (by decide)⟩

/-! ## Basic facts about the match scanner -/

lemma matchAt_iff (s pat : Text) (p : Nat) :
    matchAt s pat p = true ↔
      (p + pat.length ≤ s.length
        ∧ ((s.drop p).take pat.length).map Char.toLower = pat.map Char.toLower
        ∧ boundaryAt s p = true
        ∧ boundaryAt s (p + pat.length) = true) := by
  simp [matchAt, lowerEq, Bool.and_eq_true, and_assoc]

lemma matchAt_le (s pat : Text) (p : Nat) (h : matchAt s pat p = true) :
    p + pat.length ≤ s.length := ((matchAt_iff s pat p).mp h).1

lemma scanAux_sound (s pat : Text) :
    ∀ (fuel p0 p : Nat), p ∈ scanAux s pat fuel p0 → matchAt s pat p = true ∧ p0 ≤ p := by
  intro fuel
  induction fuel with
  | zero =>
    intro p0 p h
    simp [scanAux] at h
  | succ fuel ih =>
    intro p0 p h
    by_cases hm : matchAt s pat p0 = true
    · rw [scanAux, if_pos hm] at h
      rcases List.mem_cons.mp h with h1 | h1
      · exact ⟨h1 ▸ hm, h1 ▸ le_refl p0⟩
      · obtain ⟨hm2, hle⟩ := ih _ _ h1
        exact ⟨hm2, le_trans (Nat.le_add_right p0 pat.length) hle⟩
    · rw [scanAux, if_neg hm] at h
      obtain ⟨hm2, hle⟩ := ih _ _ h
      exact ⟨hm2, le_trans (Nat.le_succ p0) hle⟩

lemma scanAux_pairwise (s pat : Text) (hpat : pat ≠ []) :
    ∀ (fuel p0 : Nat), List.Pairwise (fun a b => a < b) (scanAux s pat fuel p0) := by
  have hL : 0 < pat.length := List.length_pos.mpr hpat
  intro fuel
  induction fuel with
  | zero =>
    intro p0
    simp [scanAux]
  | succ fuel ih =>
    intro p0
    by_cases hm : matchAt s pat p0 = true
    · rw [scanAux, if_pos hm]
      refine List.pairwise_cons.mpr ⟨?_, ih _⟩
      intro q hq
      have h2 := (scanAux_sound s pat fuel (p0 + pat.length) q hq).2
      omega
    · rw [scanAux, if_neg hm]
      exact ih _

lemma detectSingleAux_position (fw : List Text) :
    ∀ (ws : List Text) (i : Nat) (o : FillerOcc),
      o ∈ detectSingleAux fw i ws → i ≤ o.position ∧ o.ftype = FillerType.single := by
  intro ws
  induction ws with
  | nil =>
    intro i o h
    simp [detectSingleAux] at h
  | cons w rest ih =>
    intro i o h
    unfold detectSingleAux at h
    by_cases hc : clean_word w ∈ fw
    · rw [if_pos hc] at h
      rcases List.mem_cons.mp h with h1 | h1
      · rw [h1]
        exact ⟨le_refl i, rfl⟩
      · obtain ⟨h2, h3⟩ := ih _ _ h1
        exact ⟨by omega, h3⟩
    · rw [if_neg hc] at h
      obtain ⟨h2, h3⟩ := ih _ _ h
      exact ⟨by omega, h3⟩

lemma detectSingleAux_pairwise (fw : List Text) :
    ∀ (ws : List Text) (i : Nat),
      List.Pairwise (fun a b => a.position < b.position) (detectSingleAux fw i ws) := by
  intro ws
  induction ws with
  | nil =>
    intro i
    simp [detectSingleAux]
  | cons w rest ih =>
    intro i
    unfold detectSingleAux
    by_cases hc : clean_word w ∈ fw
    · rw [if_pos hc]
      refine List.pairwise_cons.mpr ⟨?_, ih _⟩
      intro o ho
      have h2 := (detectSingleAux_position fw rest (i + 1) o ho).1
      show i < o.position
      omega
    · rw [if_neg hc]
      exact ih _

/-- C10: the occurrence list is all single-word occurrences first, in
ascending token index, followed by all phrase occurrences grouped by
phrase in the fixed phrase-list order (`you know`, `i mean`, `sort of`,
`kind of`), each phrase's occurrences in ascending character offset;
and it is not sorted by overall textual position (witnessed by a
concrete input whose positions come out of order). -/
theorem C10_occurrence_order :
    (∀ (s : String) (t : Text),
      (detect_fillers (FillerDetector.init s) (PyValue.str t)).fillers_list
          = detect_single_fillers (fillerWordsFor s) (splitWs (toLowerText t))
            ++ detect_phrase_fillers filler_phrases (toLowerText t)
      ∧ (∀ o ∈ detect_single_fillers (fillerWordsFor s) (splitWs (toLowerText t)),
          o.ftype = FillerType.single)
      ∧ List.Pairwise (fun a b => a.position < b.position)
          (detect_single_fillers (fillerWordsFor s) (splitWs (toLowerText t)))
      ∧ detect_phrase_fillers filler_phrases (toLowerText t)
          = ((finditer (toLowerText t) ("you know".toList)).map
              (fun p => { word := ("you know".toList), position := p, ftype := FillerType.phrase }))
            ++ ((finditer (toLowerText t) ("i mean".toList)).map
              (fun p => { word := ("i mean".toList), position := p, ftype := FillerType.phrase }))
            ++ ((finditer (toLowerText t) ("sort of".toList)).map
              (fun p => { word := ("sort of".toList), position := p, ftype := FillerType.phrase }))
            ++ ((finditer (toLowerText t) ("kind of".toList)).map
              (fun p => { word := ("kind of".toList), position := p, ftype := FillerType.phrase }))
      ∧ (∀ ph, ph ∈ filler_phrases →
          List.Pairwise (fun a b => a < b) (finditer (toLowerText t) ph)))
  ∧ ¬ List.Pairwise (fun a b => a.position ≤ b.position)
      ((detect_fillers (FillerDetector.init ("medium"))
        (PyValue.str ("you know um".toList))).fillers_list) := by
  constructor
  · intro s t
    refine ⟨?_, ?_, ?_, ?_, ?_⟩
    · by_cases ht : t = []
      · rw [ht]
        rfl
      · simp only [detect_fillers, if_neg ht]
        rfl
    · intro o ho
      exact (detectSingleAux_position _ _ _ _ ho).2
    · exact detectSingleAux_pairwise _ _ _
    · simp [detect_phrase_fillers, filler_phrases, phraseVocabulary]
    · intro ph hph
      have hph2 : ph = ("you know".toList) ∨ ph = ("i mean".toList)
          ∨ ph = ("sort of".toList) ∨ ph = ("kind of".toList) := by
        simpa [filler_phrases, phraseVocabulary] using hph
      rcases hph2 with rfl | rfl | rfl | rfl <;>
        exact scanAux_pairwise _ _ (by decide) _ _
  · decide

/-- Witness for C10 at a concrete text and phrase. -/
theorem C10_occurrence_order_witness :
    List.Pairwise (fun a b => a < b)
      (finditer (toLowerText ("you know ok you know".toList)) ("you know".toList)) :=
  (C10_occurrence_order.1 ("medium") ("you know ok you know".toList)).2.2.2.2
    ("you know".toList) (by decide)

/-- C6 counterexample: on a concrete text (2 fillers in 6 words, density
100/3 > 30) the score is 85/3, which is not an integer — refuting the
claim that the score is always an integer. -/
theorem C6_score_not_integer_cex :
    ¬ ∃ n : ℤ, (detect_fillers (FillerDetector.init ("medium"))
        (PyValue.str ("um uh one two three four".toList))).score = (n : ℚ) := by
  have ht : ("um uh one two three four".toList : Text) ≠ [] := by decide
  have hlen : (splitWs (toLowerText ("um uh one two three four".toList))).length = 6 := by
    decide
  have hfil : (detect_single_fillers (FillerDetector.init ("medium")).filler_words
      (splitWs (toLowerText ("um uh one two three four".toList)))
      ++ detect_phrase_fillers (FillerDetector.init ("medium")).filler_phrases
        (toLowerText ("um uh one two three four".toList))).length = 2 := by decide
  have h : (detect_fillers (FillerDetector.init ("medium"))
      (PyValue.str ("um uh one two three four".toList))).score = 85 / 3 := by
    simp only [detect_fillers, if_neg ht]
    rw [hfil, hlen]
    norm_num [calculate_filler_score]
  rw [h]
  rintro ⟨n, hn⟩
  rw [div_eq_iff (by norm_num : (3 : ℚ) ≠ 0)] at hn
  have h2 : (85 : ℤ) = n * 3 := by exact_mod_cast hn
  omega

/-- C6 amended: for every input, the score is a rational number between
0 and 100 inclusive (indeed at least 20), but not always an integer. -/
theorem C6_score_in_range : ∀ (s : String) (inp : PyValue),
    0 ≤ (detect_fillers (FillerDetector.init s) inp).score
  ∧ (detect_fillers (FillerDetector.init s) inp).score ≤ 100 := by
  intro s inp
  cases inp with
  | other =>
    constructor <;> norm_num [detect_fillers, empty_result]
  | str t =>
    by_cases ht : t = []
    · rw [ht]
      constructor <;> norm_num [detect_fillers, empty_result]
    · simp only [detect_fillers, if_neg ht]
      exact ⟨le_trans (by norm_num) (calculate_filler_score_bounds _).1,
             (calculate_filler_score_bounds _).2⟩

/-- C7 counterexample: for the example sentence under `medium`
strictness, `total_words` is not 11 and `really` is not among the
detected terms (together refuting the claim as stated). -/
theorem C7_example_sentence_cex :
    ¬ ((detect_fillers (FillerDetector.init ("medium"))
        (PyValue.str ("Um, so, like, I think AI is, uh, really interesting.".toList))).total_words = 11
      ∧ ("really".toList) ∈ ((detect_fillers (FillerDetector.init ("medium"))
        (PyValue.str ("Um, so, like, I think AI is, uh, really interesting.".toList))).fillers_list.map
          (fun o => o.word))) := by
  decide

/-- C7 amended: for the example sentence under `medium` strictness the
occurrences are exactly `um`, `like` and `uh` (at token indices 0, 2, 7;
`really` is in the strict-only tier, and `so` is strict-only as well),
and `total_words` is 10, the whitespace token count of the lowercased
sentence. -/
theorem C7_example_sentence :
    (detect_fillers (FillerDetector.init ("medium"))
        (PyValue.str ("Um, so, like, I think AI is, uh, really interesting.".toList))).total_words = 10
  ∧ (detect_fillers (FillerDetector.init ("medium"))
        (PyValue.str ("Um, so, like, I think AI is, uh, really interesting.".toList))).fillers_list
      = [{ word := ("um".toList), position := 0, ftype := FillerType.single },
         { word := ("like".toList), position := 2, ftype := FillerType.single },
         { word := ("uh".toList), position := 7, ftype := FillerType.single }] := by
  decide

/-! ## Word-boundary phrase matching: soundness and completeness -/

lemma matchAt_lower (s pat : Text) (p : Nat) (h : matchAt s pat p = true) :
    ∀ i, i < pat.length →
      (pat.map Char.toLower)[i]? = (s.map Char.toLower)[p + i]? := by
  obtain ⟨hle, hseg, h3, h4⟩ := (matchAt_iff s pat p).mp h
  intro i hi
  rw [← hseg, List.map_take, List.map_drop, List.getElem?_take, if_pos hi,
    List.getElem?_drop]

lemma overlap_hasProperBorder (s pat : Text) (p q : Nat)
    (hp : matchAt s pat p = true) (hq : matchAt s pat q = true)
    (hpq : p < q) (hover : q < p + pat.length) :
    hasProperBorder (pat.map Char.toLower) = true := by
  have hlen : (pat.map Char.toLower).length = pat.length := List.length_map pat Char.toLower
  have key : (pat.map Char.toLower).drop (q - p)
      = (pat.map Char.toLower).take (pat.length - (q - p)) := by
    apply List.ext_getElem?
    intro i
    by_cases hi : i < pat.length - (q - p)
    · rw [List.getElem?_drop, List.getElem?_take, if_pos hi]
      have e1 := matchAt_lower s pat p hp (q - p + i) (by omega)
      have e2 := matchAt_lower s pat q hq i (by omega)
      rw [e1, e2]
      have e3 : p + (q - p + i) = q + i := by omega
      rw [e3]
    · rw [List.getElem?_drop, List.getElem?_take, if_neg hi,
        List.getElem?_eq_none_iff.mpr (by omega)]
  unfold hasProperBorder
  rw [List.any_eq_true]
  refine ⟨q - p, List.mem_range.mpr (by omega), ?_⟩
  rw [Bool.and_eq_true]
  refine ⟨decide_eq_true (by omega), ?_⟩
  rw [beq_iff_eq, hlen]
  exact key

lemma scanAux_complete (s pat : Text) (hpat : pat ≠ [])
    (hb : hasProperBorder (pat.map Char.toLower) = false) :
    ∀ (fuel p0 p : Nat), p0 ≤ p → s.length + 1 ≤ fuel + p0 →
      matchAt s pat p = true → p ∈ scanAux s pat fuel p0 := by
  have hL : 0 < pat.length := List.length_pos.mpr hpat
  intro fuel
  induction fuel with
  | zero =>
    intro p0 p h1 h2 h3
    exfalso
    have h4 := matchAt_le s pat p h3
    omega
  | succ fuel ih =>
    intro p0 p h1 h2 h3
    by_cases hm : matchAt s pat p0 = true
    · rw [scanAux, if_pos hm]
      rcases eq_or_lt_of_le h1 with heq | hlt
      · subst heq
        exact List.mem_cons_self _ _
      · by_cases hover : p < p0 + pat.length
        · exfalso
          have h5 := overlap_hasProperBorder s pat p0 p hm h3 hlt hover
          rw [hb] at h5
          exact Bool.false_ne_true h5
        · exact List.mem_cons_of_mem _ (ih (p0 + pat.length) p (by omega) (by omega) h3)
    · rw [scanAux, if_neg hm]
      have hne : p ≠ p0 := fun e => hm (e ▸ h3)
      exact ih (p0 + 1) p (by omega) (by omega) h3

lemma detect_phrase_sound (ss : Text) :
    ∀ (phs : List Text) (o : FillerOcc),
      o ∈ detect_phrase_fillers phs ss → o.position ∈ finditer ss o.word := by
  intro phs
  induction phs with
  | nil =>
    intro o h
    simp [detect_phrase_fillers] at h
  | cons ph2 rest ih =>
    intro o h
    unfold detect_phrase_fillers at h
    rcases List.mem_append.mp h with h1 | h1
    · obtain ⟨q, hq, he⟩ := List.mem_map.mp h1
      rw [← he]
      exact hq
    · exact ih _ h1

lemma detect_phrase_complete (ss : Text) :
    ∀ (phs : List Text) (ph : Text) (p : Nat), ph ∈ phs → p ∈ finditer ss ph →
      ({ word := ph, position := p, ftype := FillerType.phrase } : FillerOcc)
        ∈ detect_phrase_fillers phs ss := by
  intro phs
  induction phs with
  | nil =>
    intro ph p h
    simp at h
  | cons ph2 rest ih =>
    intro ph p h hp
    unfold detect_phrase_fillers
    rw [List.mem_append]
    rcases List.mem_cons.mp h with h1 | h1
    · subst h1
      exact Or.inl (List.mem_map.mpr ⟨p, hp, rfl⟩)
    · exact Or.inr (ih _ _ h1 hp)

/-- C5: phrase detection scans the lowercased text and records an
occurrence exactly at the character offsets where the phrase appears
delimited by word boundaries (the match predicate `matchAt` checks the
boundary on both sides and compares case-insensitively); in particular
`you know` is never matched inside `you knowledge`, and no phrase
matches as a mere substring of a longer word. -/
theorem C5_phrase_word_boundaries :
    (∀ (t ph : Text) (p : Nat), ph ∈ filler_phrases →
      (({ word := ph, position := p, ftype := FillerType.phrase } : FillerOcc)
          ∈ detect_phrase_fillers filler_phrases (toLowerText t)
        ↔ matchAt (toLowerText t) ph p = true))
  ∧ detect_phrase_fillers filler_phrases (toLowerText ("I gave you knowledge".toList)) = [] := by
  constructor
  · intro t ph p hph
    have hcases : ph = ("you know".toList) ∨ ph = ("i mean".toList)
        ∨ ph = ("sort of".toList) ∨ ph = ("kind of".toList) := by
      simpa [filler_phrases, phraseVocabulary] using hph
    have hprops : ph ≠ [] ∧ hasProperBorder (ph.map Char.toLower) = false := by
      rcases hcases with rfl | rfl | rfl | rfl <;> exact ⟨by decide, by decide⟩
    constructor
    · intro h
      have h2 := detect_phrase_sound (toLowerText t) filler_phrases _ h
      exact (scanAux_sound _ _ _ _ _ h2).1
    · intro h
      apply detect_phrase_complete _ _ _ _ hph
      show p ∈ scanAux (toLowerText t) ph ((toLowerText t).length + 1) 0
      exact scanAux_complete _ _ hprops.1 hprops.2 _ 0 p (Nat.zero_le p) (by omega) h
  · decide

/-- Witness for C5 at a concrete text, phrase and offset. -/
theorem C5_phrase_word_boundaries_witness :
    ({ word := ("you know".toList), position := 4, ftype := FillerType.phrase } : FillerOcc)
        ∈ detect_phrase_fillers filler_phrases (toLowerText ("hey you know ok".toList))
      ↔ matchAt (toLowerText ("hey you know ok".toList)) ("you know".toList) 4 = true :=
  C5_phrase_word_boundaries.1 ("hey you know ok".toList) ("you know".toList) 4 (by decide)

/-! ## Highlighting: stripping the markers recovers the joined tokens -/

lemma splitWsAux_chars (P : Char → Prop) :
    ∀ (s acc : Text), (∀ c ∈ s, P c) → (∀ c ∈ acc, P c) →
      ∀ w ∈ splitWsAux s acc, ∀ c ∈ w, P c := by
  intro s
  induction s with
  | nil =>
    intro acc hs hacc w hw c hc
    unfold splitWsAux at hw
    by_cases ha : acc = []
    · rw [if_pos ha] at hw
      simp at hw
    · rw [if_neg ha] at hw
      have hw2 : w = acc.reverse := List.mem_singleton.mp hw
      subst hw2
      exact hacc c (List.mem_reverse.mp hc)
  | cons ch rest ih =>
    intro acc hs hacc w hw c hc
    unfold splitWsAux at hw
    by_cases hsp : isPySpace ch = true
    · rw [if_pos hsp] at hw
      by_cases ha : acc = []
      · rw [if_pos ha] at hw
        exact ih [] (fun c2 hc2 => hs c2 (List.mem_cons_of_mem _ hc2)) (by simp) w hw c hc
      · rw [if_neg ha] at hw
        rcases List.mem_cons.mp hw with h2 | h2
        · subst h2
          exact hacc c (List.mem_reverse.mp hc)
        · exact ih [] (fun c2 hc2 => hs c2 (List.mem_cons_of_mem _ hc2)) (by simp) w h2 c hc
    · rw [if_neg hsp] at hw
      refine ih (ch :: acc) (fun c2 hc2 => hs c2 (List.mem_cons_of_mem _ hc2)) ?_ w hw c hc
      intro c2 hc2
      rcases List.mem_cons.mp hc2 with h3 | h3
      · exact h3 ▸ hs _ (List.mem_cons_self _ _)
      · exact hacc c2 h3

lemma joinSp_chars :
    ∀ (ws : List Text) (c : Char), c ∈ joinSp ws → c = ' ' ∨ ∃ w ∈ ws, c ∈ w := by
  intro ws
  induction ws with
  | nil =>
    intro c hc
    simp [joinSp] at hc
  | cons w rest ih =>
    intro c hc
    cases rest with
    | nil =>
      exact Or.inr ⟨w, List.mem_cons_self _ _, hc⟩
    | cons w2 rest2 =>
      simp only [joinSp] at hc
      rcases List.mem_append.mp hc with h1 | h1
      · exact Or.inr ⟨w, List.mem_cons_self _ _, h1⟩
      · rcases List.mem_cons.mp h1 with h2 | h2
        · exact Or.inl h2
        · rcases ih c h2 with h3 | ⟨w3, h4, h5⟩
          · exact Or.inl h3
          · exact Or.inr ⟨w3, List.mem_cons_of_mem _ h4, h5⟩

lemma wrapTokens_chars :
    ∀ (ws : List Text) (pos : List Nat) (i : Nat) (w : Text),
      w ∈ wrapTokens pos i ws → ∀ c ∈ w, c = '*' ∨ ∃ w0 ∈ ws, c ∈ w0 := by
  intro ws
  induction ws with
  | nil =>
    intro pos i w hw
    simp [wrapTokens] at hw
  | cons w0 rest ih =>
    intro pos i w hw c hc
    unfold wrapTokens at hw
    rcases List.mem_cons.mp hw with h1 | h1
    · subst h1
      by_cases hi : i ∈ pos
      · rw [if_pos hi] at hc
        simp [wrapStars] at hc
        rcases hc with h2 | h2 | h2
        · exact Or.inl h2
        · exact Or.inr ⟨w0, List.mem_cons_self _ _, h2⟩
        · exact Or.inl h2
      · rw [if_neg hi] at hc
        exact Or.inr ⟨w0, List.mem_cons_self _ _, hc⟩
    · rcases ih pos (i + 1) w h1 c hc with h2 | ⟨w3, h3, h4⟩
      · exact Or.inl h2
      · exact Or.inr ⟨w3, List.mem_cons_of_mem _ h3, h4⟩

lemma stripStars_append (a b : Text) :
    stripStars (a ++ b) = stripStars a ++ stripStars b := by
  simp [stripStars]

lemma stripStars_joinSp :
    ∀ ws : List Text, stripStars (joinSp ws) = joinSp (ws.map stripStars) := by
  intro ws
  induction ws with
  | nil => rfl
  | cons w rest ih =>
    cases rest with
    | nil => rfl
    | cons w2 rest2 =>
      show stripStars (w ++ ' ' :: joinSp (w2 :: rest2))
        = stripStars w ++ ' ' :: joinSp ((w2 :: rest2).map stripStars)
      rw [stripStars_append]
      have hsp : ∀ b : Text, stripStars (' ' :: b) = ' ' :: stripStars b := by
        intro b
        simp [stripStars]
      rw [hsp, ih]

lemma stripStars_wrapTokens :
    ∀ (ws : List Text) (pos : List Nat) (i : Nat),
      (∀ w ∈ ws, ∀ c ∈ w, c ≠ '*') →
      (wrapTokens pos i ws).map stripStars = ws := by
  intro ws
  induction ws with
  | nil =>
    intro pos i h
    rfl
  | cons w rest ih =>
    intro pos i h
    unfold wrapTokens
    rw [List.map_cons]
    have hw : stripStars w = w := by
      refine List.filter_eq_self.mpr ?_
      intro c hc
      have h2 := h w (List.mem_cons_self _ _) c hc
      simpa using h2
    congr 1
    · by_cases hi : i ∈ pos
      · rw [if_pos hi]
        show stripStars (wrapStars w) = w
        unfold wrapStars
        have h3 : stripStars ('*' :: '*' :: (w ++ ['*', '*']))
            = stripStars (w ++ ['*', '*']) := by
          simp [stripStars]
        rw [h3, stripStars_append]
        have h4 : stripStars (['*', '*'] : Text) = [] := by decide
        rw [h4, hw, List.append_nil]
      · rw [if_neg hi]
        exact hw
    · exact ih pos (i + 1) (fun w2 h2 => h w2 (List.mem_cons_of_mem _ h2))

lemma map_toLower_fixed (l : Text) (h : ∀ c ∈ l, Char.toLower c = c) :
    l.map Char.toLower = l := by
  calc l.map Char.toLower = l.map id := List.map_congr_left h
  _ = l := List.map_id l

lemma subAuxF_strip (s ph : Text)
    (hphlow : ∀ c ∈ ph, Char.toLower c = c)
    (hphstar : ∀ c ∈ ph, c ≠ '*')
    (hslow : ∀ c ∈ s, Char.toLower c = c) :
    ∀ (fuel p : Nat), stripStars (subAuxF s ph fuel p) = stripStars (s.drop p) := by
  intro fuel
  induction fuel with
  | zero =>
    intro p
    rfl
  | succ fuel ih =>
    intro p
    by_cases hm : matchAt s ph p = true
    · rw [subAuxF, if_pos hm]
      obtain ⟨hle, hseg, h3, h4⟩ := (matchAt_iff s ph p).mp hm
      have hseg2 : (s.drop p).take ph.length = ph := by
        have h5 : ((s.drop p).take ph.length).map Char.toLower
            = (s.drop p).take ph.length := by
          refine map_toLower_fixed _ ?_
          intro c hc
          exact hslow c (List.mem_of_mem_drop (List.mem_of_mem_take hc))
        rw [h5, map_toLower_fixed ph hphlow] at hseg
        exact hseg
      have hdecomp : s.drop p = ((s.drop p).take ph.length) ++ s.drop (p + ph.length) := by
        have h6 := List.take_append_drop ph.length (s.drop p)
        rw [List.drop_drop] at h6
        exact h6.symm
      rw [stripStars_append, ih (p + ph.length), hdecomp, stripStars_append, hseg2]
      have h7 : stripStars (wrapStars ph) = stripStars ph := by
        unfold wrapStars
        have h8 : stripStars ('*' :: '*' :: (ph ++ ['*', '*']))
            = stripStars (ph ++ ['*', '*']) := by
          simp [stripStars]
        rw [h8, stripStars_append]
        have h9 : stripStars (['*', '*'] : Text) = [] := by decide
        rw [h9, List.append_nil]
      rw [h7]
    · rw [subAuxF, if_neg hm]
      cases hg : s[p]? with
      | some c =>
        obtain ⟨hlt, he⟩ := List.getElem?_eq_some.mp hg
        have hd : s.drop p = c :: s.drop (p + 1) := by
          rw [List.drop_eq_getElem_cons hlt, he]
        rw [hd]
        show List.filter (fun c2 => c2 != '*') (c :: subAuxF s ph fuel (p + 1))
          = List.filter (fun c2 => c2 != '*') (c :: s.drop (p + 1))
        rw [List.filter_cons, List.filter_cons]
        have h7 := ih (p + 1)
        simp only [stripStars] at h7
        rw [h7]
      | none =>
        have hlen : s.length ≤ p := List.getElem?_eq_none_iff.mp hg
        rw [List.drop_eq_nil_of_le hlen]

lemma subAuxF_lower (s ph : Text)
    (hphlow : ∀ c ∈ ph, Char.toLower c = c)
    (hslow : ∀ c ∈ s, Char.toLower c = c) :
    ∀ (fuel p : Nat) (c : Char), c ∈ subAuxF s ph fuel p → Char.toLower c = c := by
  intro fuel
  induction fuel with
  | zero =>
    intro p c hc
    exact hslow c (List.mem_of_mem_drop hc)
  | succ fuel ih =>
    intro p c hc
    by_cases hm : matchAt s ph p = true
    · rw [subAuxF, if_pos hm] at hc
      rcases List.mem_append.mp hc with h1 | h1
      · simp [wrapStars] at h1
        rcases h1 with h2 | h2 | h2
        · exact h2 ▸ rfl
        · exact hphlow c h2
        · exact h2 ▸ rfl
      · exact ih _ c h1
    · rw [subAuxF, if_neg hm] at hc
      cases hg : s[p]? with
      | some c2 =>
        rw [hg] at hc
        rcases List.mem_cons.mp hc with h1 | h1
        · obtain ⟨hlt, he⟩ := List.getElem?_eq_some.mp hg
          exact h1 ▸ hslow c2 (he ▸ List.getElem_mem hlt)
        · exact ih _ c h1
      | none =>
        rw [hg] at hc
        simp at hc

lemma foldl_reSubStar_strip :
    ∀ (phs : List Text),
      (∀ ph ∈ phs, (∀ c ∈ ph, Char.toLower c = c) ∧ (∀ c ∈ ph, c ≠ '*')) →
      ∀ (s : Text), (∀ c ∈ s, Char.toLower c = c) →
        stripStars (List.foldl (fun acc ph => reSubStar acc ph) s phs) = stripStars s := by
  intro phs
  induction phs with
  | nil =>
    intro h s hs
    rfl
  | cons ph rest ih =>
    intro h s hs
    rw [List.foldl_cons]
    obtain ⟨h2, h3⟩ := h ph (List.mem_cons_self _ _)
    have hstep : stripStars (reSubStar s ph) = stripStars s := by
      unfold reSubStar
      rw [subAuxF_strip s ph h2 h3 hs _ 0, List.drop_zero]
    have hlow : ∀ c ∈ reSubStar s ph, Char.toLower c = c := by
      intro c hc
      exact subAuxF_lower s ph h2 hs _ _ c hc
    rw [ih (fun ph2 hm => h ph2 (List.mem_cons_of_mem _ hm)) _ hlow, hstep]

/-- C8 counterexample: on input `"You  know"` (double space, capital Y)
the output of `highlight_fillers` with markers removed is `"you know"`,
not the original text — token joining normalises whitespace and the
phrase pass substitutes the lowercase phrase, so the original casing and
whitespace are not preserved. -/
theorem C8_highlight_cex :
    stripStars (highlight_fillers (FillerDetector.init ("medium"))
        (PyValue.str ("You  know".toList))) ≠ ("You  know".toList) := by
  decide

/-- C8 amended: for input texts containing no asterisk, containing no
uppercase characters (each character fixed by lowercasing), and whose
whitespace is already normalised (joining the whitespace-split tokens
with single spaces gives the text back), removing the inserted `**`
markers from the output of `highlight_fillers` yields the input exactly;
in general the output is built from the whitespace-normalised text and
phrase matches are rendered in lowercase, so the original text is not
always recoverable. -/
theorem C8_highlight_markers :
    ∀ (s : String) (t : Text),
      (∀ c ∈ t, c ≠ '*') →
      (∀ c ∈ t, Char.toLower c = c) →
      joinSp (splitWs t) = t →
      stripStars (highlight_fillers (FillerDetector.init s) (PyValue.str t)) = t := by
  intro s t hstar hlow hnorm
  by_cases ht : t = []
  · subst ht
    rfl
  · simp only [highlight_fillers, if_neg ht]
    have htok : ∀ w ∈ splitWs t, ∀ c ∈ w, (Char.toLower c = c ∧ c ≠ '*') := by
      intro w hw c hc
      exact splitWsAux_chars (fun c2 => Char.toLower c2 = c2 ∧ c2 ≠ '*') t []
        (fun c2 hc2 => ⟨hlow c2 hc2, hstar c2 hc2⟩) (by simp) w hw c hc
    have hs1low : ∀ c ∈ joinSp (wrapTokens
        (((detect_fillers (FillerDetector.init s) (PyValue.str t)).fillers_list.filter
            (fun f => f.ftype == FillerType.single)).map (fun f => f.position))
        0 (splitWs t)), Char.toLower c = c := by
      intro c hc
      rcases joinSp_chars _ c hc with h1 | ⟨w, hw, hcw⟩
      · rw [h1]
        decide
      · rcases wrapTokens_chars (splitWs t) _ 0 w hw c hcw with h1 | ⟨w0, hw0, hcw0⟩
        · rw [h1]
          decide
        · exact (htok w0 hw0 c hcw0).1
    have hphprops : ∀ ph ∈ (FillerDetector.init s).filler_phrases,
        (∀ c ∈ ph, Char.toLower c = c) ∧ (∀ c ∈ ph, c ≠ '*') := by
      intro ph hph
      have hcases : ph = ("you know".toList) ∨ ph = ("i mean".toList)
          ∨ ph = ("sort of".toList) ∨ ph = ("kind of".toList) := by
        simpa [FillerDetector.init, phraseVocabulary] using hph
      rcases hcases with rfl | rfl | rfl | rfl <;> exact ⟨by decide, by decide⟩
    rw [foldl_reSubStar_strip _ hphprops _ hs1low]
    rw [stripStars_joinSp]
    rw [stripStars_wrapTokens _ _ 0 (fun w hw c hc => (htok w hw c hc).2)]
    exact hnorm

/-- Witness for C8 at a concrete lowercase, single-spaced text. -/
theorem C8_highlight_markers_witness :
    stripStars (highlight_fillers (FillerDetector.init ("medium"))
        (PyValue.str ("i like you".toList))) = ("i like you".toList) :=
  C8_highlight_markers ("medium") ("i like you".toList) (by decide) (by decide) (by decide)
